import Mathlib

/-!
Verification of the AWS SigV4 presigner (`src/presigner.rs`, `src/util.rs`).

Strings from the Rust code are modelled as lists of bytes (`List Nat`,
each element < 256 in practice); Rust `String` ordering is byte-wise
lexicographic, which `bytesLt` mirrors.  `BTreeMap<String, Vec<String>>`
is modelled as a key-sorted association list (`StrMap`) whose operations
(`slInsert`, `slPush`, `slGet`) mirror `insert`,
`entry(..).or_default().push(..)` and `get`.  SHA-256 and HMAC-SHA256 are
implemented from their standards (FIPS 180-4 / RFC 2104), matching the
`sha2` and `hmac` crates the code delegates to.  Rust code that panics
(the `unwrap` in `canonical_query_string`) is modelled with `Option`:
a `none` result marks the panic.
-/

set_option maxRecDepth 100000
set_option maxHeartbeats 2000000

namespace AwsPresign

/-- Byte strings: Rust `String` / `&[u8]` values as lists of byte values. -/
abbrev Bytes := List Nat

/-- Convenience for writing ASCII byte-string literals. -/
def str (s : String) : Bytes := s.data.map Char.toNat

/-- Lexicographic byte-wise strict order, Rust's `Ord` on `String`/`Vec<u8>`. -/
def bytesLt : Bytes → Bytes → Bool
  | _, [] => false
  | [], _ :: _ => true
  | a :: as, b :: bs => if a < b then true else if b < a then false else bytesLt as bs

/-- Lexicographic byte-wise order, reflexive closure of `bytesLt`. -/
def bytesLe (x y : Bytes) : Bool := bytesLt x y || x == y

/-- Model of `Vec::sort()` on strings (stable sort under `bytesLe`; equal
keys are identical lists, so any correct sort has the same value). -/
def sortBytes (l : List Bytes) : List Bytes :=
  List.insertionSort (fun a b => bytesLe a b = true) l

/-! ### SHA-256 (FIPS 180-4), the `sha2` crate used by `util::hash` -/

/-- Right rotation of a 32-bit word. -/
def rotr (n x : Nat) : Nat := ((x >>> n) ||| (x <<< (32 - n))) % 4294967296

/-- Word lookup with default 0 (indices are always in range here). -/
def wAt (l : List Nat) (i : Nat) : Nat := l.getD i 0

/-- The SHA-256 round constants. -/
def shaK : List Nat :=
  [1116352408, 1899447441, 3049323471, 3921009573, 961987163,
   1508970993, 2453635748, 2870763221, 3624381080, 310598401,
   607225278, 1426881987, 1925078388, 2162078206, 2614888103,
   3248222580, 3835390401, 4022224774, 264347078, 604807628,
   770255983, 1249150122, 1555081692, 1996064986, 2554220882,
   2821834349, 2952996808, 3210313671, 3336571891, 3584528711,
   113926993, 338241895, 666307205, 773529912, 1294757372,
   1396182291, 1695183700, 1986661051, 2177026350, 2456956037,
   2730485921, 2820302411, 3259730800, 3345764771, 3516065817,
   3600352804, 4094571909, 275423344, 430227734, 506948616,
   659060556, 883997877, 958139571, 1322822218, 1537002063,
   1747873779, 1955562222, 2024104815, 2227730452, 2361852424,
   2428436474, 2756734187, 3204031479, 3329325298]

/-- The SHA-256 initial hash state. -/
def sha256H0 : List Nat :=
  [1779033703, 3144134277, 1013904242, 2773480762, 1359893119,
   2600822924, 528734635, 1541459225]

/-- Message-schedule expansion of one 16-word block to 64 words. -/
def sha256ExtendW (block : List Nat) : List Nat :=
  (List.range 64).foldl
    (fun ws i =>
      if i < 16 then ws ++ [wAt block i]
      else
        let w15 := wAt ws (i - 15)
        let w2 := wAt ws (i - 2)
        let s0 := (rotr 7 w15) ^^^ (rotr 18 w15) ^^^ (w15 >>> 3)
        let s1 := (rotr 17 w2) ^^^ (rotr 19 w2) ^^^ (w2 >>> 10)
        ws ++ [(wAt ws (i - 16) + s0 + wAt ws (i - 7) + s1) % 4294967296])
    []

/-- One SHA-256 compression round on the 8-word working state. -/
def sha256Round : List Nat → Nat → Nat → List Nat
  | [a, b, c, d, e, f, g, h], k, w =>
    let s1 := (rotr 6 e) ^^^ (rotr 11 e) ^^^ (rotr 25 e)
    let ch := (e &&& f) ^^^ ((4294967295 ^^^ e) &&& g)
    let temp1 := (h + s1 + ch + k + w) % 4294967296
    let s0 := (rotr 2 a) ^^^ (rotr 13 a) ^^^ (rotr 22 a)
    let maj := (a &&& b) ^^^ (a &&& c) ^^^ (b &&& c)
    let temp2 := (s0 + maj) % 4294967296
    [(temp1 + temp2) % 4294967296, a, b, c, (d + temp1) % 4294967296, e, f, g]
  | st, _, _ => st

/-- SHA-256 compression of one block into the hash state. -/
def sha256Compress (hs : List Nat) (block : List Nat) : List Nat :=
  let ws := sha256ExtendW block
  let fin := (List.range 64).foldl (fun st i => sha256Round st (wAt shaK i) (wAt ws i)) hs
  List.zipWith (fun x y => (x + y) % 4294967296) hs fin

/-- Big-endian 4-byte grouping of a byte list into 32-bit words. -/
def bytesToWords : List Nat → List Nat
  | b0 :: b1 :: b2 :: b3 :: rest => (((b0 * 256 + b1) * 256 + b2) * 256 + b3) :: bytesToWords rest
  | _ => []

/-- Big-endian 8-byte encoding of a 64-bit length. -/
def word64be (n : Nat) : List Nat :=
  [(n >>> 56) % 256, (n >>> 48) % 256, (n >>> 40) % 256, (n >>> 32) % 256,
   (n >>> 24) % 256, (n >>> 16) % 256, (n >>> 8) % 256, n % 256]

/-- Big-endian 4-byte encoding of a 32-bit word. -/
def wordBytesBe (n : Nat) : List Nat :=
  [(n >>> 24) % 256, (n >>> 16) % 256, (n >>> 8) % 256, n % 256]

/-- SHA-256 padding: append 0x80, zeros to 56 mod 64, and the bit length. -/
def sha256Pad (msg : List Nat) : List Nat :=
  let len := msg.length
  msg ++ [128] ++ List.replicate ((119 - len % 64) % 64) 0 ++ word64be (8 * len)

/-- SHA-256 of a byte string (FIPS 180-4). -/
def sha256 (msg : List Nat) : List Nat :=
  let padded := sha256Pad msg
  let nb := padded.length / 64
  let fin := (List.range nb).foldl
    (fun hs i => sha256Compress hs (bytesToWords ((padded.drop (64 * i)).take 64))) sha256H0
  fin.flatMap wordBytesBe

/-- HMAC-SHA256 (RFC 2104), the `Hmac<Sha256>` used by `util::hmac`;
`new_varkey` accepts any key length, so this is total. -/
def hmacSha256 (key msg : List Nat) : List Nat :=
  let k0 := if 64 < key.length then sha256 key else key
  let kp := k0 ++ List.replicate (64 - k0.length) 0
  let inner := sha256 ((kp.map (fun b => b ^^^ 54)) ++ msg)
  sha256 ((kp.map (fun b => b ^^^ 92)) ++ inner)

/-! ### util.rs -/

/-- Lowercase hexadecimal digit of a value < 16. -/
def hexDigitLower (n : Nat) : Nat := if n < 10 then 48 + n else 87 + n

/-- Uppercase hexadecimal digit of a value < 16 (the `percent_encoding`
crate emits uppercase escapes). -/
def hexDigitUpper (n : Nat) : Nat := if n < 10 then 48 + n else 55 + n

/-- Source `util::hex_encode`: lowercase hex of a byte string (`hex::encode`). -/
def hex_encode (data : Bytes) : Bytes :=
  data.flatMap (fun b => [hexDigitLower (b / 16), hexDigitLower (b % 16)])

/-- Source `util::hash`: SHA-256. -/
def hash (data : Bytes) : Bytes := sha256 data

/-- Source `util::hmac` over byte strings. -/
def hmac (key : Bytes) (value : Bytes) : Bytes := hmacSha256 key value

/-- Source `util::sign`: lowercase hex of the HMAC. -/
def sign (signing_key : Bytes) (string_to_sign : Bytes) : Bytes :=
  hex_encode (hmac signing_key string_to_sign)

/-- The `percent_encoding::NON_ALPHANUMERIC` ASCII set: every ASCII byte
that is not a letter or digit. -/
def NON_ALPHANUMERIC (b : Nat) : Bool :=
  !((48 ≤ b && b ≤ 57) || (65 ≤ b && b ≤ 90) || (97 ≤ b && b ≤ 122))

/-- The `AsciiSet::remove` operation of the `percent_encoding` crate. -/
def asciiSetRemove (s : Nat → Bool) (c : Nat) : Nat → Bool :=
  fun b => if b == c then false else s b

/-- Source `util::URLENCODE_PATH`: `NON_ALPHANUMERIC` minus `- . _ ~ /`. -/
def URLENCODE_PATH : Nat → Bool :=
  asciiSetRemove (asciiSetRemove (asciiSetRemove (asciiSetRemove
    (asciiSetRemove NON_ALPHANUMERIC 45) 46) 95) 126) 47

/-- Source `util::URLENCODE_PARAM`: `NON_ALPHANUMERIC` minus `- . _ ~`. -/
def URLENCODE_PARAM : Nat → Bool :=
  asciiSetRemove (asciiSetRemove (asciiSetRemove
    (asciiSetRemove NON_ALPHANUMERIC 45) 46) 95) 126

/-- Per-byte behaviour of `percent_encoding::percent_encode`: bytes in the
set, and every non-ASCII byte, become `%XX` (uppercase hex); other bytes
pass through. -/
def percentEncodeByte (set : Nat → Bool) (b : Nat) : Bytes :=
  if 128 ≤ b || set b then [37, hexDigitUpper (b / 16), hexDigitUpper (b % 16)] else [b]

/-- The `percent_encoding::percent_encode` function over a byte string. -/
def percentEncode (set : Nat → Bool) (data : Bytes) : Bytes :=
  data.flatMap (percentEncodeByte set)

/-- Source `util::urlencode_path`. -/
def urlencode_path (data : Bytes) : Bytes := percentEncode URLENCODE_PATH data

/-- Source `util::urlencode_param`. -/
def urlencode_param (data : Bytes) : Bytes := percentEncode URLENCODE_PARAM data

/-- UTC timestamp at second precision, the `DateTime<Utc>` signing instant. -/
structure Timestamp where
  year : Nat
  month : Nat
  day : Nat
  hour : Nat
  minute : Nat
  second : Nat

/-- Decimal digit expansion helper (most-significant first), fuelled. -/
def decDigitsAux : Nat → Nat → List Nat
  | 0, _ => []
  | fuel + 1, n => if n = 0 then [] else decDigitsAux fuel (n / 10) ++ [48 + n % 10]

/-- Decimal rendering of a natural number as ASCII bytes. -/
def natToDec (n : Nat) : Bytes := if n = 0 then [48] else decDigitsAux (n + 1) n

/-- Zero-pad a digit string on the left to the given width. -/
def padZeros (w : Nat) (l : Bytes) : Bytes := List.replicate (w - l.length) 48 ++ l

/-- Source `util::to_date_string`: chrono format `%Y%m%d` (UTC). -/
def to_date_string (t : Timestamp) : Bytes :=
  padZeros 4 (natToDec t.year) ++ padZeros 2 (natToDec t.month) ++ padZeros 2 (natToDec t.day)

/-- Source `util::to_timestamp_string`: chrono format `%Y%m%dT%H%M%SZ` (UTC). -/
def to_timestamp_string (t : Timestamp) : Bytes :=
  to_date_string t ++ [84] ++ padZeros 2 (natToDec t.hour) ++
    padZeros 2 (natToDec t.minute) ++ padZeros 2 (natToDec t.second) ++ [90]

/-! ### BTreeMap model -/

/-- Model of `BTreeMap<String, Vec<String>>`: an association list kept in
strictly increasing key order by its operations. -/
abbrev StrMap := List (Bytes × List Bytes)

/-- Model of `BTreeMap::get`. -/
def slGet (m : StrMap) (k : Bytes) : Option (List Bytes) := List.lookup k m

/-- Model of `BTreeMap::insert` (replaces the value of an existing key). -/
def slInsert (k : Bytes) (v : List Bytes) : StrMap → StrMap
  | [] => [(k, v)]
  | (k', v') :: rest =>
    if bytesLt k k' then (k, v) :: (k', v') :: rest
    else if k == k' then (k, v) :: rest
    else (k', v') :: slInsert k v rest

/-- Model of `map.entry(key).or_default().push(value)`. -/
def slPush (k : Bytes) (v : Bytes) : StrMap → StrMap
  | [] => [(k, [v])]
  | (k', vs) :: rest =>
    if bytesLt k k' then (k, [v]) :: (k', vs) :: rest
    else if k == k' then (k', vs ++ [v]) :: rest
    else (k', vs) :: slPush k v rest

/-! ### Data model (presigner.rs) -/

/-- Default ports known to the `url` crate. -/
def defaultPort (scheme : Bytes) : Option Nat :=
  if scheme == str "http" then some 80
  else if scheme == str "https" then some 443
  else if scheme == str "ws" then some 80
  else if scheme == str "wss" then some 443
  else if scheme == str "ftp" then some 21
  else none

/-- Modelled from the url crate's documented collaborator contract:
`Url::port()` reports `none` when the URL was given no port or when the
given port is the scheme's default. -/
def portFromInput (scheme : Bytes) (given : Option Nat) : Option Nat :=
  match given with
  | none => none
  | some p => if defaultPort scheme == some p then none else some p

/-- Parsed URL as consumed by `presign`: the fields the code reads from
`url::Url` (`scheme()`, `host_str()`, `port()`, `path()`, and the decoded
`query_pairs()` in order of appearance). -/
structure Url where
  scheme : Bytes
  host : Option Bytes
  port : Option Nat
  path : Bytes
  queryPairs : List (Bytes × Bytes)

/-- Source `SigningCredentials`. -/
structure SigningCredentials where
  access_key_id : Bytes
  secret_access_key : Bytes
  session_token : Option Bytes

/-- Source `PresignerRequest`. -/
structure PresignerRequest where
  request_method : Bytes
  url : Url
  headers : StrMap
  payload : Bytes

/-- Source `SigningParams`; the `Duration` expiry is kept as its
`as_secs()` value, the only way the code reads it. -/
structure SigningParams where
  double_encode_url : Bool
  region : Bytes
  service_name : Bytes
  expirySecs : Nat
  timestamp : Timestamp

/-! ### presigner.rs functions -/

/-- Source `derive_signing_key` (presigner.rs 101-114). -/
def derive_signing_key (secret_access_key : Bytes) (timestamp : Timestamp)
    (region : Bytes) (service_name : Bytes) : Bytes :=
  let k_secret := str "AWS4" ++ secret_access_key
  let date_string := to_date_string timestamp
  let k_date := hmac k_secret date_string
  let k_region := hmac k_date region
  let k_service := hmac k_region service_name
  hmac k_service (str "aws4_request")

/-- Source `build_credential_scope` (presigner.rs 154-157). -/
def build_credential_scope (date : Timestamp) (region : Bytes) (service_name : Bytes) : Bytes :=
  to_date_string date ++ [47] ++ region ++ [47] ++ service_name ++ str "/aws4_request"

/-- ASCII lowercasing, Rust `str::to_lowercase` on the ASCII header names. -/
def toLowercase (s : Bytes) : Bytes :=
  s.map (fun b => if 65 ≤ b && b ≤ 90 then b + 32 else b)

/-- Source `canonical_headers` (presigner.rs 223-233): iterate the map in
its stored key order, lowercase each name, join values with commas. -/
def canonical_headers (headers : StrMap) : Bytes :=
  headers.foldl (fun hs kv => hs ++ toLowercase kv.1 ++ [58] ++ List.intercalate [44] kv.2 ++ [10]) []

/-- Source `signed_headers` (presigner.rs 235-239): lowercase all names,
sort, join with semicolons. -/
def signed_headers (headers : StrMap) : Bytes :=
  List.intercalate [59] (sortBytes (headers.map (fun kv => toLowercase kv.1)))

/-- Source `build_presign_query_params` (presigner.rs 159-196). -/
def build_presign_query_params (request : PresignerRequest) (params : SigningParams)
    (credential_scope : Bytes) (access_key_id : Bytes) (session_token : Option Bytes) : StrMap :=
  let base := request.url.queryPairs.foldl (fun m kv => slPush kv.1 kv.2 m) []
  let timestamp_string := to_timestamp_string params.timestamp
  let sh := signed_headers request.headers
  let m1 := slInsert (str "X-Amz-Algorithm") [str "AWS4-HMAC-SHA256"] base
  let m2 := slInsert (str "X-Amz-Credential") [access_key_id ++ [47] ++ credential_scope] m1
  let m3 := slInsert (str "X-Amz-Date") [timestamp_string] m2
  let m4 := slInsert (str "X-Amz-Expires") [natToDec params.expirySecs] m3
  let m5 := slInsert (str "X-Amz-SignedHeaders") [sh] m4
  match session_token with
  | some t => slInsert (str "X-Amz-Security-Token") [t] m5
  | none => m5

/-- The loop body of `canonical_query_string` (presigner.rs 202-219) as the
list of emitted (encoded key, encoded value) entries; `none` models the
panic of `params.get(&key).unwrap()` when the percent-encoded key is not a
key of the map. -/
def canonicalEntriesAux (params : StrMap) : List Bytes → Option (List (Bytes × Bytes))
  | [] => some []
  | k :: ks =>
    match slGet params k, canonicalEntriesAux params ks with
    | some vs, some rest =>
      some (((sortBytes (vs.map urlencode_param)).map (fun v => (k, v))) ++ rest)
    | _, _ => none

/-- The entry sequence of `canonical_query_string`: percent-encoded keys,
sorted, each looked up in the original map (the source's bug: the lookup
uses the encoded key). -/
def canonicalQueryEntries (params : StrMap) : Option (List (Bytes × Bytes)) :=
  canonicalEntriesAux params (sortBytes (params.map (fun kv => urlencode_param kv.1)))

/-- Source `canonical_query_string` (presigner.rs 198-221): the entries
joined as `key=value` with `&` separators; `none` models the panic. -/
def canonical_query_string (params : StrMap) : Option Bytes :=
  (canonicalQueryEntries params).map
    (fun entries => List.intercalate [38] (entries.map (fun kv => kv.1 ++ [61] ++ kv.2)))

/-- Host and port segment of the final URL (presigner.rs 82-87). -/
def hostAndPort (u : Url) : Bytes :=
  let host := (u.host).getD []
  match u.port with
  | some p => host ++ [58] ++ natToDec p
  | none => host

/-- Source `presign` (presigner.rs 32-99); `none` models the
`canonical_query_string` panic. -/
def presign (request : PresignerRequest) (params : SigningParams)
    (credentials : SigningCredentials) : Option Bytes :=
  let encoded_path := if params.double_encode_url then urlencode_path request.url.path
    else request.url.path
  let credential_scope := build_credential_scope params.timestamp params.region params.service_name
  let pqp := build_presign_query_params request params credential_scope
    credentials.access_key_id credentials.session_token
  match canonical_query_string pqp with
  | none => none
  | some cqs =>
    let encoded_request_payload_hash := hex_encode (hash request.payload)
    let ch := canonical_headers request.headers
    let sh := signed_headers request.headers
    let canonical_request := request.request_method ++ [10] ++ encoded_path ++ [10] ++ cqs ++
      [10] ++ ch ++ [10] ++ sh ++ [10] ++ encoded_request_payload_hash
    let request_date_time := to_timestamp_string params.timestamp
    let hashed_canonical_request := hex_encode (hash canonical_request)
    let string_to_sign := str "AWS4-HMAC-SHA256" ++ [10] ++ request_date_time ++ [10] ++
      credential_scope ++ [10] ++ hashed_canonical_request
    let k_signing := derive_signing_key credentials.secret_access_key params.timestamp
      params.region params.service_name
    let signature := sign k_signing string_to_sign
    some (request.url.scheme ++ str "://" ++ hostAndPort request.url ++ request.url.path ++
      [63] ++ cqs ++ [38] ++ str "X-Amz-Signature=" ++ signature)

/-- Ascending order on (encoded key, encoded value) entries: strictly
increasing key, or equal key and non-decreasing value. -/
def pairLe (p q : Bytes × Bytes) : Prop :=
  bytesLt p.1 q.1 = true ∨ (p.1 = q.1 ∧ bytesLe p.2 q.2 = true)

/-- Character set of the C4 claim for parameter encoding: bytes the spec
says pass through `urlencode_param` unescaped. -/
def claimParamSafe (b : Nat) : Bool :=
  (65 ≤ b && b ≤ 90) || (97 ≤ b && b ≤ 122) || (48 ≤ b && b ≤ 57) ||
    b == 45 || b == 46 || b == 95 || b == 126

/-- Character set of the C4 claim for path encoding: the parameter set
plus the slash. -/
def claimPathSafe (b : Nat) : Bool := claimParamSafe b || b == 47

/-- Signature half of `presign` (presigner.rs 53-80): given the canonical
query string, the canonical request, string-to-sign and signature, exactly
as spec section 4.5 lists the steps.  Note it signs over the (possibly
double-encoded) `encoded_path`, not the path that appears in the URL. -/
def presignSignature (request : PresignerRequest) (params : SigningParams)
    (credentials : SigningCredentials) (cqs : Bytes) : Bytes :=
  let encoded_path := if params.double_encode_url then urlencode_path request.url.path
    else request.url.path
  let credential_scope := build_credential_scope params.timestamp params.region params.service_name
  let encoded_request_payload_hash := hex_encode (hash request.payload)
  let ch := canonical_headers request.headers
  let sh := signed_headers request.headers
  let canonical_request := request.request_method ++ [10] ++ encoded_path ++ [10] ++ cqs ++
    [10] ++ ch ++ [10] ++ sh ++ [10] ++ encoded_request_payload_hash
  let request_date_time := to_timestamp_string params.timestamp
  let hashed_canonical_request := hex_encode (hash canonical_request)
  let string_to_sign := str "AWS4-HMAC-SHA256" ++ [10] ++ request_date_time ++ [10] ++
    credential_scope ++ [10] ++ hashed_canonical_request
  let k_signing := derive_signing_key credentials.secret_access_key params.timestamp
    params.region params.service_name
  sign k_signing string_to_sign

/-- C1 failing input: a request whose URL query has a key with a space,
so its percent-encoding differs from the stored key. -/
def c1req : PresignerRequest :=
  { request_method := str "GET",
    url := { scheme := str "http", host := some (str "h"), port := none,
             path := str "/", queryPairs := [(str "a b", str "c")] },
    headers := [], payload := [] }

/-- C1 signing parameters. -/
def c1params : SigningParams :=
  { double_encode_url := true, region := str "r", service_name := str "s",
    expirySecs := 0, timestamp := ⟨2015, 8, 30, 12, 36, 0⟩ }

/-- C1 credentials. -/
def c1creds : SigningCredentials :=
  { access_key_id := str "A", secret_access_key := str "S", session_token := none }

/-- C6 header map: keys `A` and `b`, stored in BTreeMap (byte) order. -/
def c6m1 : StrMap := [(str "A", [str "x"]), (str "b", [str "y"])]

/-- C6 header map with the same case-insensitive content as `c6m1` but the
opposite casing, stored in BTreeMap (byte) order. -/
def c6m2 : StrMap := [(str "B", [str "y"]), (str "a", [str "x"])]

/-- C7 witness request: empty query, no headers, empty payload. -/
def c7req : PresignerRequest :=
  { request_method := str "GET",
    url := { scheme := str "http", host := some (str "h"), port := none,
             path := str "/", queryPairs := [] },
    headers := [], payload := [] }

/-- C7 witness signing parameters. -/
def c7params : SigningParams :=
  { double_encode_url := true, region := str "r", service_name := str "s",
    expirySecs := 0, timestamp := ⟨2015, 8, 30, 12, 36, 0⟩ }

/-- C7 witness credentials. -/
def c7creds : SigningCredentials :=
  { access_key_id := str "AKID", secret_access_key := str "SECRET", session_token := none }

/-- The canonical query string of the C7 witness input. -/
def c7cqs : Bytes :=
  str "X-Amz-Algorithm=AWS4-HMAC-SHA256&X-Amz-Credential=AKID%2F20150830%2Fr%2Fs%2Faws4_request&X-Amz-Date=20150830T123600Z&X-Amz-Expires=0&X-Amz-SignedHeaders="

/-- C8 counterexample request: the caller's own query already carries an
`X-Amz-Security-Token` parameter. -/
def c8req : PresignerRequest :=
  { request_method := str "GET",
    url := { scheme := str "http", host := some (str "h"), port := none,
             path := str "/", queryPairs := [(str "X-Amz-Security-Token", str "evil")] },
    headers := [], payload := [] }

/-- C8 signing parameters. -/
def c8params : SigningParams :=
  { double_encode_url := true, region := str "r", service_name := str "s",
    expirySecs := 0, timestamp := ⟨2015, 8, 30, 12, 36, 0⟩ }

/-- C8 witness request: an ordinary query without reserved keys. -/
def c8wreq : PresignerRequest :=
  { request_method := str "GET",
    url := { scheme := str "http", host := some (str "h"), port := none,
             path := str "/", queryPairs := [(str "Action", str "connect")] },
    headers := [], payload := [] }

/-- C10 witness signing parameters. -/
def c10params : SigningParams :=
  { double_encode_url := true, region := str "r", service_name := str "s",
    expirySecs := 0, timestamp := ⟨2015, 8, 30, 12, 36, 0⟩ }

/-- C10 witness credentials. -/
def c10creds : SigningCredentials :=
  { access_key_id := str "A", secret_access_key := str "S", session_token := none }

/-! ### Order lemmas for `bytesLt` / `bytesLe` -/

theorem bytesLt_cons (a b : Nat) (as bs : Bytes) :
    bytesLt (a :: as) (b :: bs) =
      if a < b then true else if b < a then false else bytesLt as bs := rfl

theorem bytesLt_irrefl (x : Bytes) : bytesLt x x = false := by
  induction x with
  | nil => rfl
  | cons a as ih => simp [bytesLt_cons, ih]

theorem bytesLt_trans {x : Bytes} : ∀ {y z : Bytes},
    bytesLt x y = true → bytesLt y z = true → bytesLt x z = true := by
  induction x with
  | nil =>
    intro y z h1 h2
    cases y with
    | nil => simp [bytesLt] at h1
    | cons b bs =>
      cases z with
      | nil => simp [bytesLt] at h2
      | cons c cs => simp [bytesLt]
  | cons a as ih =>
    intro y z h1 h2
    cases y with
    | nil => simp [bytesLt] at h1
    | cons b bs =>
      cases z with
      | nil => simp [bytesLt] at h2
      | cons c cs =>
        rw [bytesLt_cons] at h1 h2 ⊢
        by_cases hab : a < b
        · by_cases hbc : b < c
          · simp [Nat.lt_trans hab hbc]
          · rw [if_neg hbc] at h2
            by_cases hcb : c < b
            · simp [hcb] at h2
            · have : b = c := by omega
              subst this
              simp [hab]
        · rw [if_neg hab] at h1
          by_cases hba : b < a
          · simp [hba] at h1
          · have : a = b := by omega
            subst this
            rw [if_neg hab] at h1
            by_cases hac : a < c
            · simp [hac]
            · rw [if_neg hac] at h2 ⊢
              by_cases hca : c < a
              · simp [hca] at h2
              · rw [if_neg hca] at h2 ⊢
                exact ih h1 h2

theorem bytesLt_total (x : Bytes) : ∀ y : Bytes,
    bytesLt x y = true ∨ x = y ∨ bytesLt y x = true := by
  induction x with
  | nil =>
    intro y
    cases y with
    | nil => right; left; rfl
    | cons b bs => left; rfl
  | cons a as ih =>
    intro y
    cases y with
    | nil => right; right; rfl
    | cons b bs =>
      by_cases hab : a < b
      · left; simp [bytesLt_cons, hab]
      · by_cases hba : b < a
        · right; right; simp [bytesLt_cons, hba]
        · have : a = b := by omega
          subst this
          rcases ih bs with h | h | h
          · left; simp [bytesLt_cons, h]
          · right; left; rw [h]
          · right; right; simp [bytesLt_cons, h]

theorem bytesLt_ne {x y : Bytes} (h : bytesLt x y = true) : x ≠ y := by
  intro he
  subst he
  rw [bytesLt_irrefl] at h
  exact Bool.false_ne_true h

theorem bytesLt_of_le_of_ne {x y : Bytes} (h : bytesLe x y = true) (hne : x ≠ y) :
    bytesLt x y = true := by
  rcases Bool.or_eq_true_iff.mp h with h' | h'
  · exact h'
  · exact absurd (by simpa using h') hne

instance : IsTrans Bytes (fun a b => bytesLe a b = true) := by
  constructor
  intro a b c h1 h2
  rcases Bool.or_eq_true_iff.mp h1 with h1' | h1' <;>
    rcases Bool.or_eq_true_iff.mp h2 with h2' | h2'
  · exact Bool.or_eq_true_iff.mpr (Or.inl (bytesLt_trans h1' h2'))
  · have : b = c := by simpa using h2'
    subst this
    exact Bool.or_eq_true_iff.mpr (Or.inl h1')
  · have : a = b := by simpa using h1'
    subst this
    exact Bool.or_eq_true_iff.mpr (Or.inl h2')
  · have e1 : a = b := by simpa using h1'
    have e2 : b = c := by simpa using h2'
    subst e1; subst e2
    simp [bytesLe]

instance : IsTotal Bytes (fun a b => bytesLe a b = true) := by
  constructor
  intro a b
  rcases bytesLt_total a b with h | h | h
  · exact Or.inl (Bool.or_eq_true_iff.mpr (Or.inl h))
  · subst h
    exact Or.inl (by simp [bytesLe])
  · exact Or.inr (Bool.or_eq_true_iff.mpr (Or.inl h))

theorem sortBytes_sorted (l : List Bytes) :
    List.Sorted (fun a b => bytesLe a b = true) (sortBytes l) :=
  List.sorted_insertionSort _ l

theorem sortBytes_perm (l : List Bytes) : List.Perm (sortBytes l) l :=
  List.perm_insertionSort _ l

/-! ### Lookup lemmas for the BTreeMap model -/

theorem slGet_nil (k : Bytes) : slGet [] k = none := rfl

theorem slGet_insert_self (k : Bytes) (v : List Bytes) (m : StrMap) :
    slGet (slInsert k v m) k = some v := by
  induction m with
  | nil => simp [slInsert, slGet, List.lookup]
  | cons kv rest ih =>
    obtain ⟨k2, v2⟩ := kv
    simp only [slInsert]
    by_cases h1 : bytesLt k k2 = true
    · simp [h1, slGet, List.lookup]
    · rw [if_neg h1]
      by_cases h2 : (k == k2) = true
      · simp [h2, slGet, List.lookup]
      · simp only [if_neg h2]
        simpa [slGet, List.lookup, h2] using ih

theorem slGet_insert_ne {k k2 : Bytes} (h : (k == k2) = false) (v : List Bytes) (m : StrMap) :
    slGet (slInsert k2 v m) k = slGet m k := by
  induction m with
  | nil => simp [slInsert, slGet, List.lookup, h]
  | cons kv rest ih =>
    obtain ⟨k3, v3⟩ := kv
    simp only [slInsert]
    by_cases h1 : bytesLt k2 k3 = true
    · simp [h1, slGet, List.lookup, h]
    · rw [if_neg h1]
      by_cases h2 : (k2 == k3) = true
      · have : k2 = k3 := by simpa using h2
        subst this
        simp [slGet, List.lookup, h]
      · simp only [if_neg h2]
        by_cases h3 : (k == k3) = true
        · simp [slGet, List.lookup, h3]
        · simpa [slGet, List.lookup, h3] using ih

theorem slGet_push_ne {k k2 : Bytes} (h : (k == k2) = false) (v : Bytes) (m : StrMap) :
    slGet (slPush k2 v m) k = slGet m k := by
  induction m with
  | nil => simp [slPush, slGet, List.lookup, h]
  | cons kv rest ih =>
    obtain ⟨k3, v3⟩ := kv
    simp only [slPush]
    by_cases h1 : bytesLt k2 k3 = true
    · simp [h1, slGet, List.lookup, h]
    · rw [if_neg h1]
      by_cases h2 : (k2 == k3) = true
      · have : k2 = k3 := by simpa using h2
        subst this
        simp [slGet, List.lookup, h]
      · simp only [if_neg h2]
        by_cases h3 : (k == k3) = true
        · simp [slGet, List.lookup, h3]
        · simpa [slGet, List.lookup, h3] using ih

theorem slGet_foldl_push_ne {k : Bytes} : ∀ (pairs : List (Bytes × Bytes)) (m0 : StrMap),
    (∀ p ∈ pairs, (k == p.1) = false) →
    slGet (pairs.foldl (fun m kv => slPush kv.1 kv.2 m) m0) k = slGet m0 k := by
  intro pairs
  induction pairs with
  | nil => intro m0 _; rfl
  | cons p ps ih =>
    intro m0 h
    simp only [List.foldl_cons]
    rw [ih _ (fun q hq => h q (List.mem_cons_of_mem _ hq))]
    exact slGet_push_ne (h p (List.mem_cons_self _ _)) _ _

/-! ### Injectivity of percent-encoding -/

theorem hexDigitUpper_inj {a b : Nat} (h : hexDigitUpper a = hexDigitUpper b) : a = b := by
  unfold hexDigitUpper at h
  by_cases ha : a < 10 <;> by_cases hb : b < 10 <;> simp [ha, hb] at h <;> omega

theorem percentEncode_nil (set : Nat → Bool) : percentEncode set [] = [] := by
  simp [percentEncode]

theorem percentEncode_cons (set : Nat → Bool) (a : Nat) (as : Bytes) :
    percentEncode set (a :: as) = percentEncodeByte set a ++ percentEncode set as := by
  simp [percentEncode]

theorem percentEncode_inj (set : Nat → Bool) (hset : set 37 = true) :
    ∀ {xs ys : Bytes}, percentEncode set xs = percentEncode set ys → xs = ys := by
  intro xs
  induction xs with
  | nil =>
    intro ys h
    cases ys with
    | nil => rfl
    | cons c cs =>
      exfalso
      rw [percentEncode_nil, percentEncode_cons] at h
      unfold percentEncodeByte at h
      by_cases hc : (decide (128 ≤ c) || set c) = true
      · rw [if_pos hc] at h
        simp at h
      · rw [if_neg hc] at h
        simp at h
  | cons a as ih =>
    intro ys h
    cases ys with
    | nil =>
      exfalso
      rw [percentEncode_nil, percentEncode_cons] at h
      unfold percentEncodeByte at h
      by_cases ha : (decide (128 ≤ a) || set a) = true
      · rw [if_pos ha] at h
        simp at h
      · rw [if_neg ha] at h
        simp at h
    | cons c cs =>
      rw [percentEncode_cons, percentEncode_cons] at h
      unfold percentEncodeByte at h
      by_cases ha : (decide (128 ≤ a) || set a) = true <;>
        by_cases hc : (decide (128 ≤ c) || set c) = true
      · rw [if_pos ha, if_pos hc] at h
        simp only [List.cons_append, List.nil_append] at h
        injection h with h1 h
        injection h with h2 h
        injection h with h3 h
        have e1 := hexDigitUpper_inj h2
        have e2 := hexDigitUpper_inj h3
        have e3 : a = c := by omega
        subst e3
        rw [ih h]
      · rw [if_pos ha, if_neg hc] at h
        simp only [List.cons_append, List.nil_append] at h
        injection h with h1 h
        exact absurd (by rw [← h1]; simp [hset] : (decide (128 ≤ c) || set c) = true) hc
      · rw [if_neg ha, if_pos hc] at h
        simp only [List.cons_append, List.nil_append] at h
        injection h with h1 h
        exact absurd (by rw [h1]; simp [hset] : (decide (128 ≤ a) || set a) = true) ha
      · rw [if_neg ha, if_neg hc] at h
        simp only [List.cons_append, List.nil_append] at h
        injection h with h1 h
        subst h1
        rw [ih h]

theorem urlencode_param_inj : Function.Injective urlencode_param := by
  intro xs ys h
  exact percentEncode_inj URLENCODE_PARAM (by decide) h

/-! ### Sortedness of the canonical query entries -/

theorem sortBytes_pairwise_lt {l : List Bytes} (h : l.Nodup) :
    List.Pairwise (fun a b => bytesLt a b = true) (sortBytes l) := by
  have hs := sortBytes_sorted l
  have hn : (sortBytes l).Nodup := ((sortBytes_perm l).nodup_iff).mpr h
  exact (List.Pairwise.and hs hn).imp (fun hab => bytesLt_of_le_of_ne hab.1 hab.2)

theorem canonicalEntriesAux_key_mem {m : StrMap} : ∀ {ks : List Bytes}
    {es : List (Bytes × Bytes)}, canonicalEntriesAux m ks = some es →
    ∀ e ∈ es, e.1 ∈ ks := by
  intro ks
  induction ks with
  | nil =>
    intro es h e he
    simp only [canonicalEntriesAux, Option.some.injEq] at h
    subst h
    simp at he
  | cons k ks ih =>
    intro es h e he
    cases hg : slGet m k with
    | none => simp [canonicalEntriesAux, hg] at h
    | some vs =>
      cases ha : canonicalEntriesAux m ks with
      | none => simp [canonicalEntriesAux, hg, ha] at h
      | some rest =>
        simp only [canonicalEntriesAux, hg, ha, Option.some.injEq] at h
        subst h
        rcases List.mem_append.mp he with h1 | h1
        · obtain ⟨v, -, hv⟩ := List.mem_map.mp h1
          have : e.1 = k := by rw [← hv]
          rw [this]
          exact List.mem_cons_self _ _
        · exact List.mem_cons_of_mem _ (ih ha e h1)

theorem canonicalEntriesAux_pairwise {m : StrMap} : ∀ {ks : List Bytes}
    {es : List (Bytes × Bytes)},
    List.Pairwise (fun a b => bytesLt a b = true) ks →
    canonicalEntriesAux m ks = some es → List.Pairwise pairLe es := by
  intro ks
  induction ks with
  | nil =>
    intro es _ h
    simp only [canonicalEntriesAux, Option.some.injEq] at h
    subst h
    exact List.Pairwise.nil
  | cons k ks ih =>
    intro es hp h
    cases hg : slGet m k with
    | none => simp [canonicalEntriesAux, hg] at h
    | some vs =>
      cases ha : canonicalEntriesAux m ks with
      | none => simp [canonicalEntriesAux, hg, ha] at h
      | some rest =>
        simp only [canonicalEntriesAux, hg, ha, Option.some.injEq] at h
        subst h
        rw [List.pairwise_append]
        refine ⟨?_, ?_, ?_⟩
        · exact List.Pairwise.map _ (fun a b hab => Or.inr ⟨rfl, hab⟩)
            (sortBytes_sorted (vs.map urlencode_param))
        · exact ih (List.pairwise_cons.mp hp).2 ha
        · intro a ha' b hb'
          obtain ⟨v, -, hv⟩ := List.mem_map.mp ha'
          have hak : a.1 = k := by rw [← hv]
          have hbk : b.1 ∈ ks := canonicalEntriesAux_key_mem ha b hb'
          exact Or.inl (by rw [hak]; exact (List.pairwise_cons.mp hp).1 _ hbk)

theorem canonicalQueryEntries_pairwise {m : StrMap} {es : List (Bytes × Bytes)}
    (hm : List.Pairwise (fun a b => bytesLt a.1 b.1 = true) m)
    (h : canonicalQueryEntries m = some es) : List.Pairwise pairLe es := by
  apply canonicalEntriesAux_pairwise ?_ h
  apply sortBytes_pairwise_lt
  have h1 : (m.map fun kv => kv.1).Nodup :=
    List.Pairwise.map _ (fun a b hab => bytesLt_ne hab) hm
  have h2 : ((m.map fun kv => kv.1).map urlencode_param).Nodup :=
    h1.map urlencode_param_inj
  simpa [List.map_map, Function.comp] using h2

/-! ### Claims -/

/-- Claim C1 (code bug): `presign` does NOT succeed on every well-typed
input.  On a request whose URL query has the key `a b`, the loop in
`canonical_query_string` percent-encodes the key to `a%20b` and then
calls `params.get("a%20b").unwrap()` on a map whose key is `a b`, so the
`unwrap` panics; in the model the lookup is `none` and `presign` yields
`none` instead of a URL. -/
theorem presign_panics_on_encoded_query_key :
    presign c1req c1params c1creds = none ∧
    canonical_query_string (build_presign_query_params c1req c1params
      (build_credential_scope c1params.timestamp c1params.region c1params.service_name)
      c1creds.access_key_id c1creds.session_token) = none ∧
    slGet (build_presign_query_params c1req c1params
      (build_credential_scope c1params.timestamp c1params.region c1params.service_name)
      c1creds.access_key_id c1creds.session_token) (urlencode_param (str "a b")) = none := by
  refine ⟨by decide, by decide, by decide⟩

/-- Claim C2: `derive_signing_key` on the AWS documentation test vector
(secret `wJalrXUtnFEMI/K7MDENG+bPxRfiCYEXAMPLEKEY`, any timestamp on the
UTC date 2015-08-30, region `us-east-1`, service `iam`) returns a 32-byte
key whose lowercase hex encoding is
`c4afb1cc5771d871763a393e44b703571b55cc28424d1a5e86da6ed3c154a4b9`. -/
theorem derive_signing_key_iam_vector (t : Timestamp) (hy : t.year = 2015)
    (hm : t.month = 8) (hd : t.day = 30) :
    hex_encode (derive_signing_key (str "wJalrXUtnFEMI/K7MDENG+bPxRfiCYEXAMPLEKEY") t
        (str "us-east-1") (str "iam")) =
      str "c4afb1cc5771d871763a393e44b703571b55cc28424d1a5e86da6ed3c154a4b9" ∧
    (derive_signing_key (str "wJalrXUtnFEMI/K7MDENG+bPxRfiCYEXAMPLEKEY") t
        (str "us-east-1") (str "iam")).length = 32 := by
  have hds : to_date_string t = str "20150830" := by
    simp only [to_date_string, hy, hm, hd]
    rfl
  have hkey : derive_signing_key (str "wJalrXUtnFEMI/K7MDENG+bPxRfiCYEXAMPLEKEY") t
      (str "us-east-1") (str "iam") =
      [196, 175, 177, 204, 87, 113, 216, 113, 118, 58, 57, 62, 68, 183, 3, 87, 27, 85,
       204, 40, 66, 77, 26, 94, 134, 218, 110, 211, 193, 84, 164, 185] := by
    simp only [derive_signing_key, hds]
    decide
  rw [hkey]
  exact ⟨by decide, by decide⟩

/-- Witness for C2 at the concrete timestamp 2015-08-30T12:36:00Z. -/
theorem derive_signing_key_iam_vector_witness :
    hex_encode (derive_signing_key (str "wJalrXUtnFEMI/K7MDENG+bPxRfiCYEXAMPLEKEY")
        ⟨2015, 8, 30, 12, 36, 0⟩ (str "us-east-1") (str "iam")) =
      str "c4afb1cc5771d871763a393e44b703571b55cc28424d1a5e86da6ed3c154a4b9" ∧
    (derive_signing_key (str "wJalrXUtnFEMI/K7MDENG+bPxRfiCYEXAMPLEKEY")
        ⟨2015, 8, 30, 12, 36, 0⟩ (str "us-east-1") (str "iam")).length = 32 :=
  derive_signing_key_iam_vector ⟨2015, 8, 30, 12, 36, 0⟩ rfl rfl rfl

/-- Claim C3: `sign` (lowercase hex of HMAC-SHA256) maps the signing key
of claim C2 and the fixed string-to-sign of the AWS documentation to
`5d672d79c15b13162d9279b0855cfba6789a8edb4c82c400e06b5924a6f2b5d7`. -/
theorem sign_iam_vector :
    sign (derive_signing_key (str "wJalrXUtnFEMI/K7MDENG+bPxRfiCYEXAMPLEKEY")
        ⟨2015, 8, 30, 12, 36, 0⟩ (str "us-east-1") (str "iam"))
      (str "AWS4-HMAC-SHA256\n20150830T123600Z\n20150830/us-east-1/iam/aws4_request\nf536975d06c0309214f805bb90ccff089219ecd68b2577efef23edd43b7e1a59") =
      str "5d672d79c15b13162d9279b0855cfba6789a8edb4c82c400e06b5924a6f2b5d7" := by
  decide

/-- Claim C4: `urlencode_path` passes a byte through unescaped exactly
when it is in `A-Z a-z 0-9 - . _ ~ /`, `urlencode_param` exactly when in
`A-Z a-z 0-9 - . _ ~`; the two differ precisely on the slash, which
`urlencode_path` keeps and `urlencode_param` rewrites to `%2F`. -/
theorem urlencode_safe_sets (b : Nat) (hb : b < 256) :
    (urlencode_path [b] = [b] ↔ claimPathSafe b = true) ∧
    (urlencode_param [b] = [b] ↔ claimParamSafe b = true) ∧
    (b ≠ 47 → urlencode_path [b] = urlencode_param [b]) ∧
    (b = 47 → urlencode_path [b] = [47] ∧ urlencode_param [b] = str "%2F") := by
  revert b
  decide

/-- Witness for C4 at the slash byte. -/
theorem urlencode_safe_sets_witness :
    urlencode_path [47] = [47] ∧ urlencode_param [47] = str "%2F" :=
  (urlencode_safe_sets 47 (by decide)).2.2.2 rfl

/-- Claim C5, counterexample: the output of `canonical_query_string` is
not invariant under splitting on `&` and re-sorting the `key=value`
strings: with keys `a` and `a0`, the output is `a=z&a0=b` but
`a0=b` sorts before `a=z` as strings (since `0` < `=` in byte order). -/
theorem canonical_query_string_resort_changes :
    canonical_query_string [(str "a", [str "z"]), (str "a0", [str "b"])] =
      some (str "a=z&a0=b") ∧
    sortBytes ((str "a=z&a0=b").splitOn 38) ≠ (str "a=z&a0=b").splitOn 38 := by
  refine ⟨by decide, by decide⟩

/-- Claim C5 as amended: whenever `canonical_query_string` succeeds (its
entry list is `some es`), the emitted entries are sorted ascending by
percent-encoded key and, among equal keys, by percent-encoded value --
i.e. pairwise ordered under the (key, value) lexicographic order
`pairLe`; re-sorting the entries under that pair order is a no-op.  (The
string-level re-sort of the claim fails, see the counterexample.) -/
theorem canonical_query_entries_sorted (m : StrMap) (es : List (Bytes × Bytes))
    (hm : List.Pairwise (fun a b => bytesLt a.1 b.1 = true) m)
    (h : canonicalQueryEntries m = some es) : List.Pairwise pairLe es :=
  canonicalQueryEntries_pairwise hm h

/-- Witness for the amended C5 on a two-key map. -/
theorem canonical_query_entries_sorted_witness :
    List.Pairwise pairLe [(str "a", str "b"), (str "a0", str "c")] :=
  canonical_query_entries_sorted [(str "a", [str "b"]), (str "a0", [str "c"])]
    [(str "a", str "b"), (str "a0", str "c")] (by decide) (by decide)

/-- Claim C6 (code bug): `canonical_headers` is NOT invariant under
re-casing header names.  The maps `{A: x, b: y}` and `{a: x, B: y}` hold
the same multiset of (lowercased name, values) pairs, yet the BTreeMap
iterates in original-cased byte order, so the emitted lines come out as
`a:x\nb:y\n` versus `b:y\na:x\n` -- not ascending by lowercased name.
`signed_headers` (which sorts after lowercasing) does agree on both. -/
theorem canonical_headers_depend_on_casing :
    List.Perm (c6m1.map (fun kv => (toLowercase kv.1, kv.2)))
      (c6m2.map (fun kv => (toLowercase kv.1, kv.2))) ∧
    canonical_headers c6m1 = str "a:x\nb:y\n" ∧
    canonical_headers c6m2 = str "b:y\na:x\n" ∧
    canonical_headers c6m1 ≠ canonical_headers c6m2 ∧
    signed_headers c6m1 = signed_headers c6m2 := by
  refine ⟨by decide, by decide, by decide, by decide, by decide⟩

/-- Claim C7: whenever `canonical_query_string` succeeds, the URL that
`presign` returns is exactly
`scheme://host[:port]{original path}?{canonical query string}&X-Amz-Signature={signature}`:
the path segment is the request URL's original path (never the
double-encoded variant, which enters only the signature via
`presignSignature`), and the signature parameter is appended after the
canonical query string. -/
theorem presign_url_format (request : PresignerRequest) (params : SigningParams)
    (credentials : SigningCredentials) (cqs : Bytes)
    (h : canonical_query_string (build_presign_query_params request params
      (build_credential_scope params.timestamp params.region params.service_name)
      credentials.access_key_id credentials.session_token) = some cqs) :
    presign request params credentials =
      some (request.url.scheme ++ str "://" ++ hostAndPort request.url ++ request.url.path ++
        [63] ++ cqs ++ [38] ++ str "X-Amz-Signature=" ++
        presignSignature request params credentials cqs) := by
  simp only [presign]
  rw [h]
  rfl

/-- Witness for C7 on a concrete request. -/
theorem presign_url_format_witness :
    presign c7req c7params c7creds =
      some (c7req.url.scheme ++ str "://" ++ hostAndPort c7req.url ++ c7req.url.path ++
        [63] ++ c7cqs ++ [38] ++ str "X-Amz-Signature=" ++
        presignSignature c7req c7params c7creds c7cqs) :=
  presign_url_format c7req c7params c7creds c7cqs (by decide)

/-- Claim C8, counterexample: with no session token, the key
`X-Amz-Security-Token` is NOT always absent from the map
`build_presign_query_params` returns -- a caller-supplied query parameter
of that name survives. -/
theorem security_token_key_survives_without_token :
    slGet (build_presign_query_params c8req c8params (str "scope") (str "AKID") none)
      (str "X-Amz-Security-Token") = some [str "evil"] := by
  decide

/-- Claim C8 as amended: the generated map carries
`X-Amz-Security-Token` with the token as its single value whenever the
session token is present; when the token is absent AND the caller's own
query does not itself use that key, the key is absent from the map. -/
theorem security_token_presence (request : PresignerRequest) (params : SigningParams)
    (cs akid : Bytes) (tok : Option Bytes) :
    (∀ t, tok = some t →
      slGet (build_presign_query_params request params cs akid tok)
        (str "X-Amz-Security-Token") = some [t]) ∧
    (tok = none →
      (∀ p ∈ request.url.queryPairs, (p.1 == str "X-Amz-Security-Token") = false) →
      slGet (build_presign_query_params request params cs akid tok)
        (str "X-Amz-Security-Token") = none) := by
  constructor
  · intro t ht
    subst ht
    simp only [build_presign_query_params]
    exact slGet_insert_self _ _ _
  · intro ht hq
    subst ht
    simp only [build_presign_query_params]
    rw [slGet_insert_ne (by decide), slGet_insert_ne (by decide), slGet_insert_ne (by decide),
      slGet_insert_ne (by decide), slGet_insert_ne (by decide)]
    rw [slGet_foldl_push_ne _ _ (fun p hp => by
      have hne := hq p hp
      rw [beq_eq_false_iff_ne] at hne ⊢
      exact fun e => hne e.symm)]
    rfl

/-- Witness for the amended C8: token present and token absent on a
request with an ordinary query. -/
theorem security_token_presence_witness :
    slGet (build_presign_query_params c8wreq c8params (str "scope") (str "AKID")
      (some (str "tok"))) (str "X-Amz-Security-Token") = some [str "tok"] ∧
    slGet (build_presign_query_params c8wreq c8params (str "scope") (str "AKID") none)
      (str "X-Amz-Security-Token") = none :=
  ⟨(security_token_presence c8wreq c8params (str "scope") (str "AKID")
      (some (str "tok"))).1 (str "tok") rfl,
    (security_token_presence c8wreq c8params (str "scope") (str "AKID") none).2 rfl
      (by decide)⟩

/-- Claim C9: for every request (in particular one whose query already
contains reserved keys), `build_presign_query_params` maps each reserved
key to exactly the single generated value -- the caller-supplied value
list is replaced (last-write-wins), and no error is signalled (the
function is total). -/
theorem reserved_keys_overwritten (request : PresignerRequest) (params : SigningParams)
    (cs akid t : Bytes) :
    slGet (build_presign_query_params request params cs akid (some t))
      (str "X-Amz-Algorithm") = some [str "AWS4-HMAC-SHA256"] ∧
    slGet (build_presign_query_params request params cs akid (some t))
      (str "X-Amz-Credential") = some [akid ++ [47] ++ cs] ∧
    slGet (build_presign_query_params request params cs akid (some t))
      (str "X-Amz-Date") = some [to_timestamp_string params.timestamp] ∧
    slGet (build_presign_query_params request params cs akid (some t))
      (str "X-Amz-Expires") = some [natToDec params.expirySecs] ∧
    slGet (build_presign_query_params request params cs akid (some t))
      (str "X-Amz-SignedHeaders") = some [signed_headers request.headers] ∧
    slGet (build_presign_query_params request params cs akid (some t))
      (str "X-Amz-Security-Token") = some [t] := by
  simp only [build_presign_query_params]
  refine ⟨?_, ?_, ?_, ?_, ?_, ?_⟩
  · rw [slGet_insert_ne (by decide), slGet_insert_ne (by decide), slGet_insert_ne (by decide),
      slGet_insert_ne (by decide), slGet_insert_ne (by decide)]
    exact slGet_insert_self _ _ _
  · rw [slGet_insert_ne (by decide), slGet_insert_ne (by decide), slGet_insert_ne (by decide),
      slGet_insert_ne (by decide)]
    exact slGet_insert_self _ _ _
  · rw [slGet_insert_ne (by decide), slGet_insert_ne (by decide), slGet_insert_ne (by decide)]
    exact slGet_insert_self _ _ _
  · rw [slGet_insert_ne (by decide), slGet_insert_ne (by decide)]
    exact slGet_insert_self _ _ _
  · rw [slGet_insert_ne (by decide)]
    exact slGet_insert_self _ _ _
  · exact slGet_insert_self _ _ _

/-- Claim C10: when the parsed URL reports no explicit非default port, the
final URL omits the `:{port}` suffix; a URL given with its scheme's
default port and one given with no port yield the same `port()` value,
the same host-and-port segment, and the same presigned URL. -/
theorem default_port_omitted (scheme hostB pathB : Bytes) (qp : List (Bytes × Bytes))
    (hdrs : StrMap) (method payload : Bytes) (params : SigningParams)
    (creds : SigningCredentials) (p : Nat) (hp : defaultPort scheme = some p) :
    portFromInput scheme (some p) = portFromInput scheme none ∧
    hostAndPort ⟨scheme, some hostB, portFromInput scheme (some p), pathB, qp⟩ = hostB ∧
    presign ⟨method, ⟨scheme, some hostB, portFromInput scheme (some p), pathB, qp⟩,
        hdrs, payload⟩ params creds =
      presign ⟨method, ⟨scheme, some hostB, portFromInput scheme none, pathB, qp⟩,
        hdrs, payload⟩ params creds := by
  have h0 : portFromInput scheme (some p) = none := by
    simp [portFromInput, hp]
  have h1 : portFromInput scheme none = none := rfl
  refine ⟨by rw [h0, h1], by rw [h0]; rfl, by rw [h0, h1]⟩

/-- Witness for C10 with `http` and port 80. -/
theorem default_port_omitted_witness :
    portFromInput (str "http") (some 80) = portFromInput (str "http") none ∧
    hostAndPort ⟨str "http", some (str "h"), portFromInput (str "http") (some 80),
      str "/", []⟩ = str "h" ∧
    presign ⟨str "GET", ⟨str "http", some (str "h"), portFromInput (str "http") (some 80),
        str "/", []⟩, [], []⟩ c10params c10creds =
      presign ⟨str "GET", ⟨str "http", some (str "h"), portFromInput (str "http") none,
        str "/", []⟩, [], []⟩ c10params c10creds :=
  default_port_omitted (str "http") (str "h") (str "/") [] [] (str "GET") []
    c10params c10creds 80 (by decide)

end AwsPresign
